import Mathlib

/-!
Shallow embedding of the statistical core of an I-94 traffic-volume EDA
script (`traffic_analysis_project.py`): day/night segmentation, per-month
IQR outlier filtering, weekday-by-hour residualization, daily-series
reindexing with its uniform-spacing validator, trailing moving averages,
weather-description grouping, (month, hour) relative-frequency heatmap
cells, and Welch's two-sample t-test.

Traffic volumes are embedded as exact rationals, calendar dates as natural
day numbers, and a data table as a list of rows carrying the derived
calendar fields the script computes at load time.
-/

namespace I94

/-- One observation row of the dataset, with the derived calendar fields the
script computes at load time (`month`, day-of-week `weekday`, `hour`), the
fine-grained weather description string and the traffic volume. -/
structure Row where
  month : ℕ
  weekday : ℕ
  hour : ℕ
  desc : String
  volume : ℚ
deriving DecidableEq

/-- Daytime subset: `i_94[(i_94["hour"] >= 6) & (i_94["hour"] <= 18)]`. -/
def day_time (l : List Row) : List Row :=
  l.filter fun r => decide (6 ≤ r.hour ∧ r.hour ≤ 18)

/-- Nighttime subset: `i_94[(i_94["hour"] > 18) | (i_94["hour"] < 6)]`. -/
def night_time (l : List Row) : List Row :=
  l.filter fun r => decide (18 < r.hour ∨ r.hour < 6)

/-- Filtering a list by a predicate and by its pointwise negation splits the
length of the list. -/
theorem length_filter_add_length_filter (l : List Row) (p q : Row → Bool)
    (h : ∀ a, q a = !p a) :
    (l.filter p).length + (l.filter q).length = l.length := by
  induction l with
  | nil => simp
  | cons a t ih =>
    rw [List.filter_cons, List.filter_cons, h a]
    by_cases hp : p a = true
    · simp only [hp, Bool.not_true, if_true, if_false, List.length_cons]
      simp only [show (false = true) = False by simp, if_false]
      omega
    · have hp' : p a = false := by revert hp; cases p a <;> simp
      simp only [hp', Bool.not_false, if_true, List.length_cons]
      simp only [show (false = true) = False by simp, if_false]
      omega

/-- C4: for a dataset whose hour field lies in `[0, 23]`, the daytime subset
(hour in `[6, 18]`) and the nighttime subset (hour `> 18` or `< 6`) are a
disjoint, exhaustive partition: row counts add up to the full dataset and
every row lies in exactly one of the two subsets. -/
theorem c4_day_night_partition (l : List Row) (_hl : ∀ r ∈ l, r.hour ≤ 23) :
    (day_time l).length + (night_time l).length = l.length ∧
      ∀ r ∈ l, (r ∈ day_time l ∧ r ∉ night_time l) ∨
        (r ∈ night_time l ∧ r ∉ day_time l) := by
  constructor
  · apply length_filter_add_length_filter
    intro r
    by_cases h : 6 ≤ r.hour ∧ r.hour ≤ 18
    · rw [decide_eq_true h]
      simp only [Bool.not_true]
      rw [decide_eq_false (by omega)]
    · rw [decide_eq_false h]
      simp only [Bool.not_false]
      rw [decide_eq_true (by omega)]
  · intro r hr
    by_cases h : 6 ≤ r.hour ∧ r.hour ≤ 18
    · left
      constructor
      · simp [day_time, List.mem_filter, hr, h]
      · simp only [night_time, List.mem_filter, decide_eq_true_eq]
        intro hmem
        omega
    · right
      constructor
      · simp only [night_time, List.mem_filter, decide_eq_true_eq]
        exact ⟨hr, by omega⟩
      · simp only [day_time, List.mem_filter, decide_eq_true_eq]
        intro hmem
        exact h hmem.2

/-- Witness for C4 at a concrete two-row table. -/
theorem c4_day_night_partition_witness :
    (∀ r ∈ [Row.mk 1 0 6 "mist" 100, Row.mk 1 0 23 "mist" 200], r.hour ≤ 23) ∧
      (day_time [Row.mk 1 0 6 "mist" 100, Row.mk 1 0 23 "mist" 200]).length +
        (night_time [Row.mk 1 0 6 "mist" 100, Row.mk 1 0 23 "mist" 200]).length =
        ([Row.mk 1 0 6 "mist" 100, Row.mk 1 0 23 "mist" 200] : List Row).length :=
  ⟨by decide,
    (c4_day_night_partition [Row.mk 1 0 6 "mist" 100, Row.mk 1 0 23 "mist" 200]
      (by decide)).1⟩

/-! ## Per-month IQR outlier filter (`day_time_no_out`) -/

/-- Insert a rational into a sorted list, keeping it sorted. -/
def insertSorted (x : ℚ) : List ℚ → List ℚ
  | [] => [x]
  | y :: ys => if x ≤ y then x :: y :: ys else y :: insertSorted x ys

/-- Sort a list of rationals into nondecreasing order (insertion sort). -/
def sortQ (xs : List ℚ) : List ℚ := xs.foldr insertSorted []

/-- Linear-interpolation quantile of a sample, as pandas `Series.quantile`
computes it: with the sorted values `ys` of length `n`, the quantile at `p`
sits at fractional position `p * (n - 1)` and interpolates linearly between
the two neighbouring order statistics. -/
def quantileLin (p : ℚ) (xs : List ℚ) : ℚ :=
  let ys := sortQ xs
  let n := ys.length
  if n = 0 then 0
  else
    let pos : ℚ := p * ((n : ℚ) - 1)
    let i : ℕ := (⌊pos⌋).toNat
    let lo := ys.getD i 0
    let hi := ys.getD (i + 1) lo
    lo + (pos - (i : ℚ)) * (hi - lo)

/-- IQR multiplier: the script sets `k = 1.5`. -/
def k : ℚ := 3 / 2

/-- Traffic volumes of the rows of the table that lie in month `m`: the group
`day_time_clean.groupby("month")["traffic_volume"]` assigns to a row. -/
def monthVolumes (l : List Row) (m : ℕ) : List ℚ :=
  (l.filter fun r => decide (r.month = m)).map fun r => r.volume

/-- First quartile of a row's own month group:
`g.transform(lambda s: s.quantile(0.25))`. -/
def groupQ1 (l : List Row) (m : ℕ) : ℚ := quantileLin (1 / 4) (monthVolumes l m)

/-- Third quartile of a row's own month group:
`g.transform(lambda s: s.quantile(0.75))`. -/
def groupQ3 (l : List Row) (m : ℕ) : ℚ := quantileLin (3 / 4) (monthVolumes l m)

/-- Interquartile range of a month group: `iqr = q3 - q1`. -/
def groupIQR (l : List Row) (m : ℕ) : ℚ := groupQ3 l m - groupQ1 l m

/-- Lower outlier bound of a month group: `lower = q1 - k * iqr`. -/
def lowerB (l : List Row) (m : ℕ) : ℚ := groupQ1 l m - k * groupIQR l m

/-- Upper outlier bound of a month group: `upper = q3 + k * iqr`. -/
def upperB (l : List Row) (m : ℕ) : ℚ := groupQ3 l m + k * groupIQR l m

/-- The IQR-filtered table: rows of `day_time_clean` whose traffic volume lies
within the outlier bounds of the row's own month group,
`day_time_clean[(tv >= lower) & (tv <= upper)]`. -/
def day_time_no_out (l : List Row) : List Row :=
  l.filter fun r => decide (lowerB l r.month ≤ r.volume ∧ r.volume ≤ upperB l r.month)

/-- C2: every row retained by the per-month IQR filter with `k = 1.5` has its
volume inside `[Q1_g - k*IQR_g, Q3_g + k*IQR_g]` computed from the row's own
month group, every row of the input that is discarded violates those bounds,
and the bounds depend only on the row's own month group (they are never
global: any table with the same month group yields the same bounds). -/
theorem c2_iqr_filter_per_group_bounds (l : List Row) (r : Row) :
    (r ∈ day_time_no_out l →
        r ∈ l ∧ lowerB l r.month ≤ r.volume ∧ r.volume ≤ upperB l r.month) ∧
      (r ∈ l → r ∉ day_time_no_out l →
        r.volume < lowerB l r.month ∨ upperB l r.month < r.volume) ∧
      (∀ l' : List Row, monthVolumes l' r.month = monthVolumes l r.month →
        lowerB l' r.month = lowerB l r.month ∧ upperB l' r.month = upperB l r.month) := by
  refine ⟨?_, ?_, ?_⟩
  · intro hmem
    rw [day_time_no_out, List.mem_filter, decide_eq_true_eq] at hmem
    exact ⟨hmem.1, hmem.2⟩
  · intro hl hnot
    rw [day_time_no_out, List.mem_filter, decide_eq_true_eq] at hnot
    push_neg at hnot
    rcases le_or_lt (lowerB l r.month) r.volume with h1 | h1
    · exact Or.inr (hnot hl h1)
    · exact Or.inl h1
  · intro l' hgrp
    rw [lowerB, upperB, lowerB, upperB, groupIQR, groupIQR, groupQ1, groupQ1,
      groupQ3, groupQ3, hgrp]
    exact ⟨rfl, rfl⟩

/-- Concrete five-row table for the C2 witness: month-1 volumes
`[1, 2, 3, 4, 100]`, so `Q1 = 2`, `Q3 = 4`, `IQR = 2`, bounds `[-1, 7]`. -/
def lEx2 : List Row :=
  [Row.mk 1 0 6 "mist" 1, Row.mk 1 0 7 "mist" 2, Row.mk 1 0 8 "mist" 3,
    Row.mk 1 0 9 "mist" 4, Row.mk 1 0 10 "mist" 100]

/-- Witness for C2: in `lEx2`, the row with volume 100 is in the table, is
discarded by the IQR filter, and violates its month group's bounds. -/
theorem c2_iqr_filter_witness :
    Row.mk 1 0 10 "mist" 100 ∈ lEx2 ∧
      Row.mk 1 0 10 "mist" 100 ∉ day_time_no_out lEx2 ∧
      (Row.volume (Row.mk 1 0 10 "mist" 100) <
          lowerB lEx2 (Row.month (Row.mk 1 0 10 "mist" 100)) ∨
        upperB lEx2 (Row.month (Row.mk 1 0 10 "mist" 100)) <
          Row.volume (Row.mk 1 0 10 "mist" 100)) := by
  have hmem : Row.mk 1 0 10 "mist" 100 ∈ lEx2 := by decide
  have hout : Row.mk 1 0 10 "mist" 100 ∉ day_time_no_out lEx2 := by
    simp only [day_time_no_out, List.mem_filter, decide_eq_true_eq, not_and]
    intro hmem2
    norm_num [lowerB, upperB, groupQ1, groupQ3, groupIQR, k, monthVolumes, lEx2,
      quantileLin, sortQ, insertSorted, show Int.toNat 1 = 1 from rfl,
      show Int.toNat 3 = 3 from rfl]
  exact ⟨hmem, hout,
    (c2_iqr_filter_per_group_bounds lEx2 (Row.mk 1 0 10 "mist" 100)).2.1 hmem hout⟩

/-! ## Residualization against the weekday-by-hour baseline (`resid`) -/

/-- Mean of a list of rationals (sum over length; `0` on the empty list). -/
def listMean (g : List ℚ) : ℚ := g.sum / g.length

/-- Rows of the table in the `(weekday, hour)` group `(w, h)`: the group
`tmp_sorted.groupby(["weekday", "hour"])` assigns to a row. -/
def groupRows (l : List Row) (w h : ℕ) : List Row :=
  l.filter fun r => decide (r.weekday = w ∧ r.hour = h)

/-- Group mean of traffic volume over a `(weekday, hour)` group:
`groupby(["weekday", "hour"])["traffic_volume"].transform("mean")`. -/
def groupMean (l : List Row) (w h : ℕ) : ℚ :=
  listMean ((groupRows l w h).map fun r => r.volume)

/-- Residualized table: each row paired with its residual
`tmp_sorted["resid"] = tmp_sorted["traffic_volume"] - mu`, where `mu` is the
row's own `(weekday, hour)` group mean. -/
def resid (l : List Row) : List (Row × ℚ) :=
  l.map fun r => (r, r.volume - groupMean l r.weekday r.hour)

/-- C5: each observation's residual equals its observed volume minus the mean
of its `(weekday, hour)` group, and on a dataset where every observation
equals its group mean every residual is 0. -/
theorem c5_residualization (l : List Row) :
    (∀ p ∈ resid l, p.2 = p.1.volume - groupMean l p.1.weekday p.1.hour) ∧
      ((∀ r ∈ l, r.volume = groupMean l r.weekday r.hour) →
        ∀ p ∈ resid l, p.2 = 0) := by
  constructor
  · intro p hp
    rcases List.mem_map.mp hp with ⟨r, _hr, rfl⟩
    rfl
  · intro hall p hp
    rcases List.mem_map.mp hp with ⟨r, hr, rfl⟩
    simpa using sub_eq_zero_of_eq (hall r hr)

/-- Concrete table for the C5 witness: the `(0, 6)` group holds volumes
`[5, 5]` with mean 5 and the `(1, 7)` group holds `[8]` with mean 8, so every
observation equals its group mean. -/
def lEx5 : List Row :=
  [Row.mk 1 0 6 "mist" 5, Row.mk 1 0 6 "mist" 5, Row.mk 1 1 7 "mist" 8]

/-- Witness for C5 at `lEx5`: every observation equals its group mean and
every residual is 0. -/
theorem c5_residualization_witness :
    (∀ r ∈ lEx5, r.volume = groupMean lEx5 r.weekday r.hour) ∧
      ∀ p ∈ resid lEx5, p.2 = 0 := by
  have hall : ∀ r ∈ lEx5, r.volume = groupMean lEx5 r.weekday r.hour := by
    intro r hr
    simp only [lEx5, List.mem_cons, List.not_mem_nil, or_false] at hr
    rcases hr with rfl | rfl | rfl <;>
      norm_num [groupMean, groupRows, listMean, lEx5]
  exact ⟨hall, (c5_residualization lEx5).2 hall⟩

/-- Sum of `volume - c` over a list of rows, written via the row count. -/
theorem sum_map_sub_const (g : List Row) (c : ℚ) :
    (g.map fun r => r.volume - c).sum = (g.map fun r => r.volume).sum - g.length * c := by
  induction g with
  | nil => simp
  | cons a t ih =>
    simp only [List.map_cons, List.sum_cons, ih, List.length_cons]
    push_cast
    ring

/-- C10: after residualization against the `(weekday, hour)` group means, the
residuals of every non-empty `(weekday, hour)` group sum to zero. -/
theorem c10_residual_group_sum_zero (l : List Row) (w h : ℕ)
    (hne : ∃ r ∈ l, r.weekday = w ∧ r.hour = h) :
    (((resid l).filter fun p => decide (p.1.weekday = w ∧ p.1.hour = h)).map
        Prod.snd).sum = 0 := by
  rw [resid, List.filter_map]
  have hpred :
      ((fun p : Row × ℚ => decide (p.1.weekday = w ∧ p.1.hour = h)) ∘
          fun r : Row => (r, r.volume - groupMean l r.weekday r.hour)) =
        fun r : Row => decide (r.weekday = w ∧ r.hour = h) := rfl
  rw [hpred, List.map_map]
  have hsnd :
      (Prod.snd ∘ fun r : Row => (r, r.volume - groupMean l r.weekday r.hour)) =
        fun r : Row => r.volume - groupMean l r.weekday r.hour := rfl
  rw [hsnd]
  have hmem : ∀ r ∈ groupRows l w h, r.weekday = w ∧ r.hour = h := by
    intro r hr
    have := (List.mem_filter.mp hr).2
    simpa using this
  have hcongr :
      ((l.filter fun r => decide (r.weekday = w ∧ r.hour = h)).map
          fun r : Row => r.volume - groupMean l r.weekday r.hour) =
        (groupRows l w h).map fun r : Row => r.volume - groupMean l w h := by
    apply List.map_congr_left
    intro r hr
    rcases hmem r hr with ⟨hw, hh⟩
    rw [hw, hh]
  rw [hcongr, sum_map_sub_const]
  have hlen : (groupRows l w h).length ≠ 0 := by
    rcases hne with ⟨r, hr, hw, hh⟩
    have : r ∈ groupRows l w h := by
      rw [groupRows, List.mem_filter]
      exact ⟨hr, by simp [hw, hh]⟩
    intro h0
    rw [List.length_eq_zero] at h0
    rw [h0] at this
    cases this
  have hlenQ : ((groupRows l w h).length : ℚ) ≠ 0 := by
    exact_mod_cast hlen
  rw [groupMean, listMean, List.length_map]
  rw [mul_comm, div_mul_cancel₀ _ hlenQ]
  exact sub_self _

/-- Witness for C10: in the table with `(0, 6)` volumes `[4, 6]` (group mean
5) the group's residuals `[-1, 1]` sum to zero. -/
theorem c10_residual_group_sum_zero_witness :
    (∃ r ∈ [Row.mk 1 0 6 "mist" 4, Row.mk 1 0 6 "mist" 6, Row.mk 1 1 7 "mist" 8],
        r.weekday = 0 ∧ r.hour = 6) ∧
      (((resid [Row.mk 1 0 6 "mist" 4, Row.mk 1 0 6 "mist" 6, Row.mk 1 1 7 "mist" 8]).filter
            fun p => decide (p.1.weekday = 0 ∧ p.1.hour = 6)).map Prod.snd).sum = 0 :=
  ⟨⟨Row.mk 1 0 6 "mist" 4, by decide⟩,
    c10_residual_group_sum_zero
      [Row.mk 1 0 6 "mist" 4, Row.mk 1 0 6 "mist" 6, Row.mk 1 1 7 "mist" 8] 0 6
      ⟨Row.mk 1 0 6 "mist" 4, by decide⟩⟩

/-! ## Trailing moving average (`by_week_weekday_MA`) -/

/-- Non-missing values in the trailing window of width `w` ending at position
`i` of a weekly series (pandas `rolling` aggregations skip missing values
inside the window). -/
def windowVals (xs : List (Option ℚ)) (i w : ℕ) : List ℚ :=
  ((xs.drop (i + 1 - w)).take (min (i + 1) w)).filterMap id

/-- Trailing moving average of a weekly series:
`by_week_weekday.rolling(window=w, min_periods=1).mean()`. Output `i` is the
mean of the non-missing values in the trailing window of width `w` ending at
`i`, or missing when the window holds no value. -/
def by_week_weekday_MA (w : ℕ) (xs : List (Option ℚ)) : List (Option ℚ) :=
  (List.range xs.length).map fun i =>
    let vals := windowVals xs i w
    if vals.length = 0 then none else some (listMean vals)

/-- On a fully observed series the trailing window of width `w` at `i` is the
block of the last `min (i+1) w` elements ending at position `i`. -/
theorem windowVals_map_some (xs : List ℚ) (i w : ℕ) :
    windowVals (xs.map some) i w = (xs.drop (i + 1 - w)).take (min (i + 1) w) := by
  rw [windowVals, ← List.map_drop, ← List.map_take, List.filterMap_map]
  simp [Function.comp]

/-- C6: on any fully observed series, the window-4 trailing moving average
outputs at each position `i` the mean of the last `min (i+1) 4` elements
ending at `i` (partial windows at the series start); that trailing block has
exactly `min (i+1) 4` elements; and on `[10, 20, 30]` the output is
`[10, 15, 20]`. -/
theorem c6_moving_average :
    (∀ xs : List ℚ,
        by_week_weekday_MA 4 (xs.map some) =
          (List.range xs.length).map fun i =>
            some (listMean ((xs.take (i + 1)).drop (i + 1 - 4)))) ∧
      (∀ (xs : List ℚ) (i : ℕ), i < xs.length →
        ((xs.take (i + 1)).drop (i + 1 - 4)).length = min (i + 1) 4) ∧
      by_week_weekday_MA 4 ([10, 20, 30].map some) = [some 10, some 15, some 20] := by
  have hblock : ∀ (xs : List ℚ) (i : ℕ),
      (xs.take (i + 1)).drop (i + 1 - 4) = (xs.drop (i + 1 - 4)).take (min (i + 1) 4) := by
    intro xs i
    rw [List.drop_take]
    congr 1
    omega
  have hlen : ∀ (xs : List ℚ) (i : ℕ), i < xs.length →
      ((xs.take (i + 1)).drop (i + 1 - 4)).length = min (i + 1) 4 := by
    intro xs i hi
    rw [List.length_drop, List.length_take]
    omega
  refine ⟨?_, hlen, ?_⟩
  · intro xs
    rw [by_week_weekday_MA, List.length_map]
    apply List.map_congr_left
    intro i hi
    rw [List.mem_range] at hi
    have hwin := windowVals_map_some xs i 4
    have hne : (windowVals (xs.map some) i 4).length ≠ 0 := by
      rw [hwin, List.length_take, List.length_drop]
      omega
    simp only [hwin, hblock xs i] at hne ⊢
    rw [if_neg hne]
  · norm_num [by_week_weekday_MA, windowVals, listMean, List.range_succ,
      List.filterMap_cons, id]
    refine ⟨fun h => ?_, fun h _ => ?_, fun h _ _ => ?_⟩ <;> exact absurd h (by simp)

/-- Witness for C6: at `i = 2` of a three-element series the trailing window
holds `min 3 4 = 3` elements. -/
theorem c6_moving_average_witness :
    2 < ([10, 20, 30] : List ℚ).length ∧
      ((([10, 20, 30] : List ℚ).take 3).drop 0).length = min 3 4 :=
  ⟨by norm_num, c6_moving_average.2.1 [10, 20, 30] 2 (by norm_num)⟩

/-! ## (month, hour) frequency heatmap (`plot_weather_heatmap`) -/

/-- Total observation count of a `(month, hour)` cell across all weather
conditions: the `base` table `warm_season_daytime.groupby(["month", "hour"]).size()`. -/
def cellTotal (l : List Row) (m h : ℕ) : ℕ :=
  (l.filter fun r => decide (r.month = m ∧ r.hour = h)).length

/-- Occurrence count of one weather description in a `(month, hour)` cell:
the `counts` table built from the rows with `weather_description == weather`. -/
def cellCond (l : List Row) (w : String) (m h : ℕ) : ℕ :=
  (l.filter fun r => decide (r.desc = w ∧ r.month = m ∧ r.hour = h)).length

/-- Normalized heatmap cell, `counts / base.replace(0, np.nan)`: dividing by
a missing value propagates missingness, so a cell with zero total
observations is missing rather than `0.0`. -/
def heatCell (l : List Row) (w : String) (m h : ℕ) : Option ℚ :=
  if cellTotal l m h = 0 then none
  else some ((cellCond l w m h : ℚ) / (cellTotal l m h : ℚ))

/-- Heatmap data grid of `plot_weather_heatmap`: months 4..10 as rows and
hours 6..18 as columns (`reindex(index=range(4, 11), columns=range(6, 19))`). -/
def weather_heatmap (l : List Row) (w : String) : List (List (Option ℚ)) :=
  (List.range' 4 7).map fun m => (List.range' 6 13).map fun h => heatCell l w m h

/-- C7: a heatmap cell with positive total count equals condition count over
total count, and a cell with zero total count is missing — in particular it
is never the value `0.0`. -/
theorem c7_heatmap_cell (l : List Row) (w : String) (m h : ℕ) :
    (0 < cellTotal l m h →
        heatCell l w m h = some ((cellCond l w m h : ℚ) / (cellTotal l m h : ℚ))) ∧
      (cellTotal l m h = 0 →
        heatCell l w m h = none ∧ heatCell l w m h ≠ some 0) := by
  constructor
  · intro hpos
    rw [heatCell, if_neg (by omega)]
  · intro hzero
    have hnone : heatCell l w m h = none := by rw [heatCell, if_pos hzero]
    exact ⟨hnone, by rw [hnone]; exact fun hcon => Option.noConfusion hcon⟩

/-- Witness for C7 at a one-row table: the `(4, 6)` cell has total count 1 and
relative frequency 1 for `"mist"`, while the empty `(4, 7)` cell is missing. -/
theorem c7_heatmap_cell_witness :
    0 < cellTotal [Row.mk 4 0 6 "mist" 100] 4 6 ∧
      heatCell [Row.mk 4 0 6 "mist" 100] "mist" 4 6 =
        some ((cellCond [Row.mk 4 0 6 "mist" 100] "mist" 4 6 : ℚ) /
          (cellTotal [Row.mk 4 0 6 "mist" 100] 4 6 : ℚ)) ∧
      cellTotal [Row.mk 4 0 6 "mist" 100] 4 7 = 0 ∧
      heatCell [Row.mk 4 0 6 "mist" 100] "mist" 4 7 = none :=
  ⟨by decide,
    (c7_heatmap_cell [Row.mk 4 0 6 "mist" 100] "mist" 4 6).1 (by decide),
    by decide,
    ((c7_heatmap_cell [Row.mk 4 0 6 "mist" 100] "mist" 4 7).2 (by decide)).1⟩

/-! ## Daily-series construction and validator (`sc_daily`, `daily_counts`,
`check_daily_series`) -/

/-- Per-date mean of the observations falling on calendar day `d`
(`groupby("date_only")["traffic_volume"].mean()`), missing when the day holds
no observation. -/
def dailyMean (obs : List (ℕ × ℚ)) (d : ℕ) : Option ℚ :=
  let g := (obs.filter fun p => decide (p.1 = d)).map Prod.snd
  if g.length = 0 then none else some (listMean g)

/-- Minimum of a list of day numbers (`index.min()`); 0 on the empty list. -/
def minD : List ℕ → ℕ
  | [] => 0
  | [d] => d
  | d :: rest => min d (minD rest)

/-- Maximum of a list of day numbers (`index.max()`); 0 on the empty list. -/
def maxD : List ℕ → ℕ
  | [] => 0
  | [d] => d
  | d :: rest => max d (maxD rest)

/-- Contiguous range of calendar days from `lo` to `hi` inclusive
(`pd.date_range(lo, hi, freq="D")`). -/
def dateRange (lo hi : ℕ) : List ℕ := List.range' lo (hi + 1 - lo)

/-- Reindex a per-day mean series onto the range `[lo, hi]`
(`s.reindex(all_days)`): absent days become missing. -/
def reindexMean (obs : List (ℕ × ℚ)) (lo hi : ℕ) : List (ℕ × Option ℚ) :=
  (dateRange lo hi).map fun d => (d, dailyMean obs d)

/-- Daily mean series of the `scattered clouds` subset: the script reindexes
it over `all_days`, the range from the minimum to the maximum date of the
`scattered clouds` and `mist` subsets jointly. -/
def sc_daily (A B : List (ℕ × ℚ)) : List (ℕ × Option ℚ) :=
  reindexMean A (min (minD (A.map Prod.fst)) (minD (B.map Prod.fst)))
    (max (maxD (A.map Prod.fst)) (maxD (B.map Prod.fst)))

/-- Daily mean series of the `mist` subset over the same joint range. -/
def mst_daily (A B : List (ℕ × ℚ)) : List (ℕ × Option ℚ) :=
  reindexMean B (min (minD (A.map Prod.fst)) (minD (B.map Prod.fst)))
    (max (maxD (A.map Prod.fst)) (maxD (B.map Prod.fst)))

/-- Daily occurrence counts of one weather description over the full date
range of the whole table, absent days filled with zero
(`groupby(["date_only", "weather_description"]).size() ... .reindex(all_days,
fill_value=0)`). -/
def daily_counts (tbl : List (ℕ × String)) (w : String) : List (ℕ × ℕ) :=
  (dateRange (minD (tbl.map Prod.fst)) (maxD (tbl.map Prod.fst))).map fun d =>
    (d, (tbl.filter fun p => decide (p.1 = d ∧ p.2 = w)).length)

/-- Uniform-spacing check of `check_daily_series`: every consecutive pair of
index dates differs by exactly one day
(`diffs_full.eq(pd.Timedelta(days=1)).all()`). -/
def is_daily_full : List ℕ → Bool
  | [] => true
  | [_] => true
  | d1 :: d2 :: rest => (d2 == d1 + 1) && is_daily_full (d2 :: rest)

/-- A contiguous block of day numbers passes the uniform-spacing check. -/
theorem is_daily_full_range' (n : ℕ) :
    ∀ lo : ℕ, is_daily_full (List.range' lo n) = true := by
  induction n with
  | zero => intro lo; rfl
  | succ m ih =>
    intro lo
    cases m with
    | zero => rfl
    | succ m' =>
      rw [List.range'_succ, List.range'_succ]
      simp only [is_daily_full, beq_self_eq_true, Bool.true_and]
      rw [← List.range'_succ]
      exact ih (lo + 1)

/-- `minD` bounds every member of the list from below. -/
theorem minD_le : ∀ (ds : List ℕ) (d : ℕ), d ∈ ds → minD ds ≤ d := by
  intro ds
  induction ds with
  | nil => intro d hd; cases hd
  | cons a t ih =>
    intro d hd
    cases t with
    | nil =>
      have : d = a := by simpa using hd
      subst this
      exact le_rfl
    | cons b t' =>
      have hm : minD (a :: b :: t') = min a (minD (b :: t')) := rfl
      rcases List.mem_cons.mp hd with rfl | hmem
      · rw [hm]; exact min_le_left _ _
      · rw [hm]; exact le_trans (min_le_right _ _) (ih d hmem)

/-- `maxD` bounds every member of the list from above. -/
theorem le_maxD : ∀ (ds : List ℕ) (d : ℕ), d ∈ ds → d ≤ maxD ds := by
  intro ds
  induction ds with
  | nil => intro d hd; cases hd
  | cons a t ih =>
    intro d hd
    cases t with
    | nil =>
      have : d = a := by simpa using hd
      subst this
      exact le_rfl
    | cons b t' =>
      have hm : maxD (a :: b :: t') = max a (maxD (b :: t')) := rfl
      rcases List.mem_cons.mp hd with rfl | hmem
      · rw [hm]; exact le_max_left _ _
      · rw [hm]; exact le_trans (ih d hmem) (le_max_right _ _)

/-- A day no observation falls on has a missing per-day mean. -/
theorem dailyMean_eq_none (obs : List (ℕ × ℚ)) (d : ℕ)
    (h : ∀ p ∈ obs, p.1 ≠ d) : dailyMean obs d = none := by
  rw [dailyMean]
  have hf : obs.filter (fun p => decide (p.1 = d)) = [] := by
    rw [List.filter_eq_nil_iff]
    intro p hp
    simp [h p hp]
  simp [hf]

/-- The index of a reindexed mean series is exactly the date range. -/
theorem reindex_fst (obs : List (ℕ × ℚ)) (lo hi : ℕ) :
    (reindexMean obs lo hi).map Prod.fst = dateRange lo hi := by
  rw [reindexMean, List.map_map]
  have h : (Prod.fst ∘ fun d : ℕ => (d, dailyMean obs d)) = id := rfl
  rw [h, List.map_id]

/-- C3 counterexample: the mean-based series is reindexed over the joint date
range of both condition subsets, so with observations `A = [(3, 10)]` and a
companion series `B = [(1, 5)]`, the index of the series built from `A` is
`[1, 2, 3]`, not the contiguous range `[3]` of `A`'s own minimum-to-maximum
observed dates — refuting the claim as stated for the series' own input. -/
theorem c3_daily_series_cex :
    minD ([((3 : ℕ), (10 : ℚ))].map Prod.fst) = 3 ∧
      maxD ([((3 : ℕ), (10 : ℚ))].map Prod.fst) = 3 ∧
      (sc_daily [(3, (10 : ℚ))] [(1, 5)]).map Prod.fst = [1, 2, 3] ∧
      (sc_daily [(3, (10 : ℚ))] [(1, 5)]).map Prod.fst ≠ dateRange 3 3 := by
  refine ⟨by decide, by decide, by decide, by decide⟩

/-- C3 (amended): the mean-based daily series is indexed by the contiguous
date range from the minimum to the maximum date observed across both
condition subsets built together (a range containing every date of the
series' own input); within it, dates absent from the series' own input are
missing; the count-based series is indexed by the whole table's
minimum-to-maximum date range with absent dates counted zero; the
uniform-spacing check returns true on both full indexes; and on dates
`[1, 3, 5]` with values `[10, 20, 30]` the construction yields 5 entries with
days 2 and 4 missing. -/
theorem c3_daily_series_amended :
    (∀ A B : List (ℕ × ℚ),
        (sc_daily A B).map Prod.fst =
          dateRange (min (minD (A.map Prod.fst)) (minD (B.map Prod.fst)))
            (max (maxD (A.map Prod.fst)) (maxD (B.map Prod.fst))) ∧
        is_daily_full ((sc_daily A B).map Prod.fst) = true ∧
        (∀ d ∈ (sc_daily A B).map Prod.fst,
          d ∉ A.map Prod.fst → (d, (none : Option ℚ)) ∈ sc_daily A B) ∧
        (∀ p ∈ A, p.1 ∈ (sc_daily A B).map Prod.fst)) ∧
      (∀ (tbl : List (ℕ × String)) (w : String),
        (daily_counts tbl w).map Prod.fst =
          dateRange (minD (tbl.map Prod.fst)) (maxD (tbl.map Prod.fst)) ∧
        is_daily_full ((daily_counts tbl w).map Prod.fst) = true ∧
        (∀ d ∈ (daily_counts tbl w).map Prod.fst,
          (∀ p ∈ tbl, ¬(p.1 = d ∧ p.2 = w)) → (d, 0) ∈ daily_counts tbl w)) ∧
      sc_daily [(1, (10 : ℚ)), (3, 20), (5, 30)] [(1, (10 : ℚ)), (3, 20), (5, 30)] =
        [(1, some 10), (2, none), (3, some 20), (4, none), (5, some 30)] := by
  refine ⟨?_, ?_, ?_⟩
  · intro A B
    refine ⟨reindex_fst _ _ _, ?_, ?_, ?_⟩
    · rw [sc_daily, reindex_fst, dateRange]
      exact is_daily_full_range' _ _
    · intro d hd hnot
      have hdr : d ∈ dateRange (min (minD (A.map Prod.fst)) (minD (B.map Prod.fst)))
          (max (maxD (A.map Prod.fst)) (maxD (B.map Prod.fst))) := by
        rw [sc_daily, reindex_fst] at hd
        exact hd
      have hnone : dailyMean A d = none := by
        apply dailyMean_eq_none
        intro p hp hpd
        exact hnot (hpd ▸ List.mem_map_of_mem Prod.fst hp)
      have hpair : (d, dailyMean A d) ∈ sc_daily A B := by
        rw [sc_daily, reindexMean]
        exact List.mem_map_of_mem _ hdr
      rwa [hnone] at hpair
    · intro p hp
      have hmem : p.1 ∈ A.map Prod.fst := List.mem_map_of_mem Prod.fst hp
      have h1 := minD_le _ _ hmem
      have h2 := le_maxD _ _ hmem
      rw [sc_daily, reindex_fst, dateRange, List.mem_range'_1]
      omega
  · intro tbl w
    have hfst : (daily_counts tbl w).map Prod.fst =
        dateRange (minD (tbl.map Prod.fst)) (maxD (tbl.map Prod.fst)) := by
      rw [daily_counts, List.map_map]
      have h : (Prod.fst ∘ fun d : ℕ =>
          (d, (tbl.filter fun p => decide (p.1 = d ∧ p.2 = w)).length)) = id := rfl
      rw [h, List.map_id]
    refine ⟨hfst, ?_, ?_⟩
    · rw [hfst, dateRange]
      exact is_daily_full_range' _ _
    · intro d hd hnot
      have hdr : d ∈ dateRange (minD (tbl.map Prod.fst)) (maxD (tbl.map Prod.fst)) := by
        rwa [hfst] at hd
      have hcnt : (tbl.filter fun p => decide (p.1 = d ∧ p.2 = w)).length = 0 := by
        have hf : tbl.filter (fun p => decide (p.1 = d ∧ p.2 = w)) = [] := by
          rw [List.filter_eq_nil_iff]
          intro p hp
          simp only [decide_eq_true_eq]
          exact hnot p hp
        rw [hf]
        rfl
      have hpair : (d, (tbl.filter fun p => decide (p.1 = d ∧ p.2 = w)).length) ∈
          daily_counts tbl w := by
        rw [daily_counts]
        exact List.mem_map_of_mem _ hdr
      rwa [hcnt] at hpair
  · have hlo : min (minD (([(1, (10 : ℚ)), (3, 20), (5, 30)]).map Prod.fst))
        (minD (([(1, (10 : ℚ)), (3, 20), (5, 30)]).map Prod.fst)) = 1 := by decide
    have hhi : max (maxD (([(1, (10 : ℚ)), (3, 20), (5, 30)]).map Prod.fst))
        (maxD (([(1, (10 : ℚ)), (3, 20), (5, 30)]).map Prod.fst)) = 5 := by decide
    rw [sc_daily, hlo, hhi]
    have h : dateRange 1 5 = [1, 2, 3, 4, 5] := by decide
    rw [reindexMean, h]
    norm_num [dailyMean, listMean]

/-- Witness for the amended C3: in the `[1, 3, 5]` example, day 2 is in the
reindexed index, absent from the input, and marked missing. -/
theorem c3_daily_series_witness :
    2 ∈ (sc_daily [(1, (10 : ℚ)), (3, 20), (5, 30)]
          [(1, (10 : ℚ)), (3, 20), (5, 30)]).map Prod.fst ∧
      2 ∉ ([(1, (10 : ℚ)), (3, 20), (5, 30)]).map Prod.fst ∧
      (2, (none : Option ℚ)) ∈
        sc_daily [(1, (10 : ℚ)), (3, 20), (5, 30)] [(1, (10 : ℚ)), (3, 20), (5, 30)] :=
  ⟨by decide, by decide,
    (c3_daily_series_amended.1 [(1, (10 : ℚ)), (3, 20), (5, 30)]
        [(1, (10 : ℚ)), (3, 20), (5, 30)]).2.2.1 2 (by decide) (by decide)⟩

/-! ## Weather-description grouping and normalization -/

/-- Lowercase every character of a string (`.str.lower()`). -/
def strToLower (s : String) : String := ⟨s.data.map Char.toLower⟩

/-- Remove leading and trailing whitespace from a string (`.str.strip()`). -/
def strStrip (s : String) : String :=
  ⟨((s.data.dropWhile Char.isWhitespace).reverse.dropWhile Char.isWhitespace).reverse⟩

/-- Normalization the script applies to `weather_description`:
`day_time["weather_description"].str.strip().str.lower()`. -/
def normalizeDesc (s : String) : String := strToLower (strStrip s)

/-- Distinct weather-description group keys of a table, in order of first
appearance. -/
def descKeys (l : List Row) : List String := (l.map fun r => r.desc).dedup

/-- Mean traffic volume of the rows carrying one weather-description key. -/
def descMean (l : List Row) (d : String) : ℚ :=
  listMean ((l.filter fun r => decide (r.desc = d)).map fun r => r.volume)

/-- The by-description aggregation
`day_time.groupby("weather_description")["traffic_volume"].mean()`: one
`(key, mean)` entry per distinct raw description string. It is computed
before the normalization step of the script. -/
def by_weather_description (l : List Row) : List (String × ℚ) :=
  (descKeys l).map fun d => (d, descMean l d)

/-- The table after the normalization step rewrites every
`weather_description` through `strip` and `lower`. -/
def normalizeTable (l : List Row) : List Row :=
  l.map fun r => { r with desc := normalizeDesc r.desc }

/-- Traffic volumes of the rows of a table carrying one description key (the
value list a description-grouped aggregation reduces). -/
def descVolumes (l : List Row) (d : String) : List ℚ :=
  (l.filter fun r => decide (r.desc = d)).map fun r => r.volume

/-- C9 counterexample: the by-description aggregation groups raw strings, so
the rows `"Sky is Clear"` and `"sky is clear"` — equal up to letter case —
land in two different groups, refuting the claim that every
weather-description-grouped aggregation uses normalized keys. -/
theorem c9_grouping_before_normalization_cex :
    normalizeDesc "Sky is Clear" = normalizeDesc "sky is clear" ∧
      (by_weather_description
          [Row.mk 1 0 6 "Sky is Clear" 1, Row.mk 1 0 6 "sky is clear" 3]).map
          Prod.fst =
        ["Sky is Clear", "sky is clear"] := by
  constructor
  · decide
  · decide

/-- C9 (amended): a description-grouped aggregation places two rows whose
descriptions agree up to letter case and surrounding whitespace in the same
group exactly when it runs on a table whose description column the
normalization step has rewritten: on any `normalizeTable`-rewritten table
both volumes land in the value list of the shared normalized key, while the
`daily_counts` aggregation — built from the never-normalized full dataset
even though it executes after the normalization step — keys on raw strings,
so on a table holding `"Sky is Clear"` and `"sky is clear"` on the same day
each variant's count series sees only its own row (count 1, not 2). -/
theorem c9_normalized_grouping_amended :
    (∀ (l : List Row) (r1 r2 : Row), r1 ∈ l → r2 ∈ l →
        normalizeDesc r1.desc = normalizeDesc r2.desc →
        r1.volume ∈ descVolumes (normalizeTable l) (normalizeDesc r1.desc) ∧
          r2.volume ∈ descVolumes (normalizeTable l) (normalizeDesc r1.desc)) ∧
      normalizeDesc "Sky is Clear" = normalizeDesc "sky is clear" ∧
      daily_counts [(1, "Sky is Clear"), (1, "sky is clear")] "sky is clear" =
        [(1, 1)] ∧
      daily_counts [(1, "Sky is Clear"), (1, "sky is clear")] "Sky is Clear" =
        [(1, 1)] := by
  refine ⟨?_, by decide, by decide, by decide⟩
  intro l r1 r2 h1 h2 h
  constructor
  · refine List.mem_map.mpr ⟨{ r1 with desc := normalizeDesc r1.desc }, ?_, rfl⟩
    rw [List.mem_filter]
    refine ⟨List.mem_map.mpr ⟨r1, h1, rfl⟩, by simp⟩
  · refine List.mem_map.mpr ⟨{ r2 with desc := normalizeDesc r2.desc }, ?_, rfl⟩
    rw [List.mem_filter]
    refine ⟨List.mem_map.mpr ⟨r2, h2, rfl⟩, by simp [h]⟩

/-- Witness for the amended C9 at the two-row table of the counterexample:
after normalization both volumes share the group `"sky is clear"`. -/
theorem c9_normalized_grouping_witness :
    Row.mk 1 0 6 "Sky is Clear" 1 ∈
        [Row.mk 1 0 6 "Sky is Clear" 1, Row.mk 1 0 6 "sky is clear" 3] ∧
      Row.mk 1 0 6 "sky is clear" 3 ∈
        [Row.mk 1 0 6 "Sky is Clear" 1, Row.mk 1 0 6 "sky is clear" 3] ∧
      normalizeDesc "Sky is Clear" = normalizeDesc "sky is clear" ∧
      (1 : ℚ) ∈
        descVolumes
          (normalizeTable
            [Row.mk 1 0 6 "Sky is Clear" 1, Row.mk 1 0 6 "sky is clear" 3])
          (normalizeDesc "Sky is Clear") :=
  ⟨by decide, by decide, by decide,
    (c9_normalized_grouping_amended.1
        [Row.mk 1 0 6 "Sky is Clear" 1, Row.mk 1 0 6 "sky is clear" 3]
        (Row.mk 1 0 6 "Sky is Clear" 1) (Row.mk 1 0 6 "sky is clear" 3)
        (by decide) (by decide) (by decide)).1⟩

/-! ## Welch's two-sample t-test (`t_test`)

The script hands the two daily-mean series (missing values included) to the
external statistical backend (`ro.r["t.test"]`), whose computation is not
part of this repository's sources; the definitions below therefore model the
test from the spec's contract. -/

/-- Modelled from the spec: removal of missing values from a sample prior to
the test (`Inputs must have missing values removed prior to the test`); the
sample handed over by the script is a reindexed daily series containing
missing entries. -/
def cleanSample (xs : List (Option ℚ)) : List ℚ := xs.filterMap id

/-- Modelled from the spec: sample mean `mean(A)` of the t-test contract. -/
def sampleMean (xs : List ℚ) : ℚ := xs.sum / xs.length

/-- Modelled from the spec: sample variance with the `n - 1` denominator. -/
def sampleVar (xs : List ℚ) : ℚ :=
  ((xs.map fun x => (x - sampleMean xs) ^ 2).sum) / ((xs.length : ℚ) - 1)

/-- Modelled from the spec: squared standard error
`s²_A/n_A + s²_B/n_B` of the difference of means. -/
def se2 (a b : List ℚ) : ℚ := sampleVar a / a.length + sampleVar b / b.length

/-- Modelled from the spec: the Welch test statistic
`t = (mean(A) - mean(B)) / sqrt(s²_A/n_A + s²_B/n_B)`. -/
noncomputable def tStat (a b : List ℚ) : ℝ :=
  ((sampleMean a - sampleMean b : ℚ) : ℝ) / Real.sqrt ((se2 a b : ℚ) : ℝ)

/-- Modelled from the spec: the Welch–Satterthwaite degrees of freedom
`df = (s²_A/n_A + s²_B/n_B)² / [(s²_A/n_A)²/(n_A-1) + (s²_B/n_B)²/(n_B-1)]`. -/
def welchDf (a b : List ℚ) : ℚ :=
  se2 a b ^ 2 /
    ((sampleVar a / a.length) ^ 2 / ((a.length : ℚ) - 1) +
      (sampleVar b / b.length) ^ 2 / ((b.length : ℚ) - 1))

/-- Modelled from the spec: density of the t-distribution with `d` degrees of
freedom, used for the two-sided p-value. -/
noncomputable def tPdf (d y : ℝ) : ℝ :=
  Real.Gamma ((d + 1) / 2) / (Real.Gamma (d / 2) * Real.sqrt (d * Real.pi)) *
    (1 + y ^ 2 / d) ^ (-((d + 1) / 2))

/-- Modelled from the spec: cumulative distribution function of the
t-distribution with `d` degrees of freedom. -/
noncomputable def tCdf (d x : ℝ) : ℝ := ∫ y in Set.Iic x, tPdf d y

/-- Modelled from the spec: two-sided p-value from the t-distribution with
the computed degrees of freedom. -/
noncomputable def pValue (d t : ℝ) : ℝ := 2 * (1 - tCdf d |t|)

/-- Result record of the test: t statistic, degrees of freedom, p-value and
both sample means, as the script reads them back
(`statistic`, `parameter`, `p.value`, `estimate`). -/
structure WelchResult where
  t : ℝ
  df : ℚ
  p : ℝ
  meanA : ℚ
  meanB : ℚ

/-- Modelled from the spec: the Welch test computation on two cleaned
samples. -/
noncomputable def welch (a b : List ℚ) : WelchResult :=
  { t := tStat a b, df := welchDf a b,
    p := pValue ((welchDf a b : ℚ) : ℝ) (tStat a b),
    meanA := sampleMean a, meanB := sampleMean b }

/-- Modelled from the spec: the two-sample Welch t-test operation
(`t_test = ro.r["t.test"](...)`, an external-backend call not in this
repository's sources): missing values are removed from both samples, a
sample size below 2 in either group is signalled as an insufficient-data
error, and otherwise the statistics are computed from the cleaned samples. -/
noncomputable def t_test (xs ys : List (Option ℚ)) : Except String WelchResult :=
  if (cleanSample xs).length < 2 then
    Except.error "insufficient data: not enough x observations"
  else if (cleanSample ys).length < 2 then
    Except.error "insufficient data: not enough y observations"
  else Except.ok (welch (cleanSample xs) (cleanSample ys))

/-- Success payload of a fallible computation, `none` on error. -/
def okValue {α : Type} (e : Except String α) : Option α :=
  match e with
  | Except.ok a => some a
  | Except.error _ => none

/-- C1: the Welch t-test removes missing values from both samples before
computing (on success its payload is the test computed from the cleaned
samples) and returns a result exactly when both cleaned samples have at
least 2 values; otherwise it signals an error instead. -/
theorem c1_t_test_missing_and_insufficient (xs ys : List (Option ℚ)) :
    okValue (t_test xs ys) =
      if 2 ≤ (cleanSample xs).length ∧ 2 ≤ (cleanSample ys).length then
        some (welch (cleanSample xs) (cleanSample ys))
      else none := by
  rw [t_test]
  by_cases h1 : (cleanSample xs).length < 2
  · rw [if_pos h1, if_neg (by omega)]
    rfl
  · by_cases h2 : (cleanSample ys).length < 2
    · rw [if_neg h1, if_pos h2, if_neg (by omega)]
      rfl
    · rw [if_neg h1, if_neg h2, if_pos (by omega)]
      rfl

/-- C8: for valid samples, the Welch test statistic is antisymmetric under
swapping the samples, the Welch–Satterthwaite degrees of freedom are
symmetric, and the two-sided p-value is symmetric. -/
theorem c8_welch_swap_symmetry (a b : List ℚ)
    (_ha : 2 ≤ a.length) (_hb : 2 ≤ b.length) :
    tStat a b = -tStat b a ∧ welchDf a b = welchDf b a ∧
      pValue ((welchDf a b : ℚ) : ℝ) (tStat a b) =
        pValue ((welchDf b a : ℚ) : ℝ) (tStat b a) := by
  have hse : se2 a b = se2 b a := add_comm _ _
  have ht : tStat a b = -tStat b a := by
    rw [tStat, tStat, hse, ← neg_div]
    congr 1
    push_cast
    ring
  have hdf : welchDf a b = welchDf b a := by
    rw [welchDf, welchDf, se2, se2]
    ring
  refine ⟨ht, hdf, ?_⟩
  rw [pValue, pValue, hdf, ht, abs_neg]

/-- Witness for C8 at the samples `[1, 2]` and `[4, 8]`. -/
theorem c8_welch_swap_symmetry_witness :
    2 ≤ ([1, 2] : List ℚ).length ∧ 2 ≤ ([4, 8] : List ℚ).length ∧
      (tStat [1, 2] [4, 8] = -tStat [4, 8] [1, 2] ∧
        welchDf [1, 2] [4, 8] = welchDf [4, 8] [1, 2] ∧
        pValue ((welchDf [1, 2] [4, 8] : ℚ) : ℝ) (tStat [1, 2] [4, 8]) =
          pValue ((welchDf [4, 8] [1, 2] : ℚ) : ℝ) (tStat [4, 8] [1, 2])) :=
  ⟨by norm_num, by norm_num,
    c8_welch_swap_symmetry [1, 2] [4, 8] (by norm_num) (by norm_num)⟩

end I94
